import Mathlib

/-!
A shallow embedding of `src/Simulation.py` (alan459/CashierSimulation).

The tick-driven engine lives in four Python classes: `Customer`, `Server`,
`CustomerLine` and the statistics held in class-level variables
(`Customer.WaitingTimes`, `Customer.ServiceTimes`, `Customer.TotalFinished`,
`CustomerLine.CustomersLost`).  Python floats are idealised as `ℚ`, minute
indices as `ℤ`.  The class-level mutable statistics are gathered into one
explicit `Stats` record threaded through every operation.  Python division
raising `ZeroDivisionError` is modelled by `pyDiv` returning `Except`;
the float division inside `Server.process` is modelled with total `ℚ`
division, which is observationally faithful because the program constructs
servers from numpy `float64` rates, where `0.0 / 0.0` yields `nan` without
raising, and that quotient is only ever read when a customer finishes,
which a zero-rate server never causes.
-/

namespace CashierSim

/-- `Customer.__init__` state: initial work, remaining work, the minute the
customer entered the line and the minute it left the line (`-1` sentinel). -/
structure Customer where
  unitsOfWorkToComplete : ℚ
  workRemaining : ℚ
  timeEnteredLine : ℤ
  timeExitedLine : ℤ
deriving DecidableEq, Repr

/-- The class-level mutable statistics of `Customer` and `CustomerLine`:
`Customer.WaitingTimes`, `Customer.ServiceTimes`, `Customer.TotalFinished`
and `CustomerLine.CustomersLost`. -/
structure Stats where
  WaitingTimes : List ℚ
  ServiceTimes : List ℚ
  TotalFinished : ℕ
  CustomersLost : ℤ
deriving DecidableEq, Repr

/-- The statistics at program start: empty lists, zero counters. -/
def Stats.empty : Stats := ⟨[], [], 0, 0⟩

/-- `Customer(_unitsOfWork, _time)`: `workRemaining` starts at the full
workload and `timeExitedLine` at the `-1` sentinel. -/
def Customer.new (unitsOfWork : ℚ) (time : ℤ) : Customer :=
  ⟨unitsOfWork, unitsOfWork, time, -1⟩

/-- `Customer.help(workCompleted, timeNow, percentOfMinuteHelped)`:
subtract the work done; when the remainder is `≤ 0` record
`timeNow - timeExitedLine + percentOfMinuteHelped` as a service time and
bump `TotalFinished`. -/
def Customer.help (c : Customer) (workCompleted : ℚ) (timeNow : ℤ)
    (percentOfMinuteHelped : ℚ) (st : Stats) : Customer × Stats :=
  let c' : Customer := { c with workRemaining := c.workRemaining - workCompleted }
  if c'.workRemaining ≤ 0 then
    let serviceTime : ℚ := (timeNow : ℚ) - (c.timeExitedLine : ℚ) + percentOfMinuteHelped
    (c', { st with ServiceTimes := st.ServiceTimes ++ [serviceTime],
                   TotalFinished := st.TotalFinished + 1 })
  else
    (c', st)

/-- `Customer.isFinished`: the remaining work is `≤ 0`. -/
def Customer.isFinished (c : Customer) : Bool :=
  decide (c.workRemaining ≤ 0)

/-- `Customer.finishedWaiting(currentTime)`: stamp `timeExitedLine` and
record the waiting time `timeExitedLine - timeEnteredLine`. -/
def Customer.finishedWaiting (c : Customer) (currentTime : ℤ) (st : Stats) :
    Customer × Stats :=
  let c' : Customer := { c with timeExitedLine := currentTime }
  (c', { st with WaitingTimes :=
      st.WaitingTimes ++ [((c'.timeExitedLine - c.timeEnteredLine : ℤ) : ℚ)] })

/-- `Server.__init__(_workPerMin)` state. -/
structure Server where
  unitsOfWorkPerMin : ℚ
  workDoneInLastMin : ℚ
  lastCustomerTime : ℤ
  customersServed : ℕ
  customer : Option Customer
deriving DecidableEq, Repr

/-- A fresh server: no work done, `lastCustomerTime = -1`, no customer. -/
def Server.new (workPerMin : ℚ) : Server :=
  ⟨workPerMin, 0, -1, 0, none⟩

/-- `Server.isIdle`: no customer assigned. -/
def Server.isIdle (s : Server) : Bool :=
  s.customer.isNone

/-- `Server.canDoMoreWorkThisMinute(timeNow)`:
`lastCustomerTime < timeNow or workDoneInLastMin < unitsOfWorkPerMin`. -/
def Server.canDoMoreWorkThisMinute (s : Server) (timeNow : ℤ) : Bool :=
  decide (s.lastCustomerTime < timeNow) || decide (s.workDoneInLastMin < s.unitsOfWorkPerMin)

/-- `Server.assignCustomer(customer, timeNow)`: first
`customer.finishedWaiting(timeNow)`, then bind the customer. -/
def Server.assignCustomer (s : Server) (c : Customer) (timeNow : ℤ) (st : Stats) :
    Server × Stats :=
  let p := c.finishedWaiting timeNow st
  ({ s with customer := some p.1 }, p.2)

/-- The lazy per-minute reset at the top of `Server.process`: if the minute
advanced, zero `workDoneInLastMin` and stamp `lastCustomerTime`. -/
def Server.resetIfNewMinute (s : Server) (currentTime : ℤ) : Server :=
  if s.lastCustomerTime < currentTime then
    { s with workDoneInLastMin := 0, lastCustomerTime := currentTime }
  else
    s

/-- `Server.process(currentTime)`: return unchanged when idle; otherwise
lazily reset the minute budget, do
`min(customer.workRemaining, unitsOfWorkPerMin - workDoneInLastMin)` work,
call `help` with the fraction `workToBeDone / unitsOfWorkPerMin`, add the
work to the accumulator, and clear the assignment (bumping
`customersServed`) when the customer is finished. -/
def Server.process (s : Server) (currentTime : ℤ) (st : Stats) : Server × Stats :=
  match s.customer with
  | none => (s, st)
  | some cust =>
    let s₁ := s.resetIfNewMinute currentTime
    let workToBeDone := min cust.workRemaining (s₁.unitsOfWorkPerMin - s₁.workDoneInLastMin)
    let p := cust.help workToBeDone currentTime (workToBeDone / s₁.unitsOfWorkPerMin) st
    let s₂ : Server := { s₁ with customer := some p.1,
                                 workDoneInLastMin := s₁.workDoneInLastMin + workToBeDone }
    if p.1.isFinished then
      ({ s₂ with customer := none, customersServed := s₂.customersServed + 1 }, p.2)
    else
      (s₂, p.2)

/-- `CustomerLine.__init__(_cashiers, _cap)` state.  `cap` is `ℤ` so the
embedding follows the Python arithmetic `cap - len(queue)` exactly. -/
structure CustomerLine where
  cashiers : List Server
  customerQueue : List Customer
  cap : ℤ
deriving DecidableEq, Repr

/-- `CustomerLine.addCustomersToLine(customers)`: append the whole batch if
it fits, else append the prefix of length `cap - len(queue)` and add the
rest to `CustomersLost`.  `Python range(n)` over a non-positive `n` is
empty, matching `Int.toNat`. -/
def CustomerLine.addCustomersToLine (line : CustomerLine) (customers : List Customer)
    (st : Stats) : CustomerLine × Stats :=
  if (line.customerQueue.length : ℤ) + customers.length ≤ line.cap then
    ({ line with customerQueue := line.customerQueue ++ customers }, st)
  else
    let customersToAdd : ℤ := line.cap - line.customerQueue.length
    ({ line with customerQueue :=
         line.customerQueue ++ customers.take customersToAdd.toNat },
     { st with CustomersLost :=
         st.CustomersLost + ((customers.length : ℤ) - customersToAdd) })

/-- The body of the `while` loop in `CustomerLine.workOnCustomers`, one
cashier at a time, with explicit fuel:
`while queue and cashier.canDoMoreWorkThisMinute(timeNow): if idle, pop
and assign; then process`.  Every iteration either pops the queue or is
immediately followed by loop exit (a busy, non-finishing `process` call
exhausts the minute budget), so `2 * len(queue) + 2` fuel always reaches
the loop's natural exit; the fuel-0 branch is unreachable from the
engine's calls. -/
def Server.serveLoop : ℕ → Server → ℤ → List Customer → Stats → Server × List Customer × Stats
  | 0, s, _, q, st => (s, q, st)
  | Nat.succ fuel, s, timeNow, q, st =>
    match q with
    | [] => (s, [], st)
    | c :: rest =>
      if s.canDoMoreWorkThisMinute timeNow then
        if s.isIdle then
          let p := s.assignCustomer c timeNow st
          let p2 := p.1.process timeNow p.2
          Server.serveLoop fuel p2.1 timeNow rest p2.2
        else
          let p2 := s.process timeNow st
          Server.serveLoop fuel p2.1 timeNow (c :: rest) p2.2
      else
        (s, c :: rest, st)

/-- The `for cashier in self.cashiers` loop of
`CustomerLine.workOnCustomers`: run `serveLoop` for each cashier in order,
threading the queue and the statistics. -/
def serveAll (timeNow : ℤ) : List Server → List Customer → Stats →
    List Server × List Customer × Stats
  | [], q, st => ([], q, st)
  | s :: rest, q, st =>
    let r := s.serveLoop (2 * q.length + 2) timeNow q st
    let r' := serveAll timeNow rest r.2.1 r.2.2
    (r.1 :: r'.1, r'.2.1, r'.2.2)

/-- `CustomerLine.workOnCustomers(timeNow)`. -/
def CustomerLine.workOnCustomers (line : CustomerLine) (timeNow : ℤ) (st : Stats) :
    CustomerLine × Stats :=
  let r := serveAll timeNow line.cashiers line.customerQueue st
  ({ line with cashiers := r.1, customerQueue := r.2.1 }, r.2.2)

/-- `CustomerLine.process(customers, timeNow)`: admit, then advance. -/
def CustomerLine.process (line : CustomerLine) (customers : List Customer)
    (timeNow : ℤ) (st : Stats) : CustomerLine × Stats :=
  let p := line.addCustomersToLine customers st
  p.1.workOnCustomers timeNow p.2

/-- `CustomerLine.size()`. -/
def CustomerLine.size (line : CustomerLine) : ℕ :=
  line.customerQueue.length

/-- The tick loop of `SimulationManager.run` with the per-minute arrival
batches made explicit: minute `t` hands batch `b` to
`CustomerLine.process(b, t)` and the minute counter increases by one. -/
def runBatches : CustomerLine → Stats → List (List Customer) → ℤ → CustomerLine × Stats
  | line, st, [], _ => (line, st)
  | line, st, b :: bs, t =>
    let p := line.process b t st
    runBatches p.1 p.2 bs (t + 1)

/-- Python division on `ℚ`: `ZeroDivisionError` when the divisor is zero. -/
def pyDiv (a b : ℚ) : Except String ℚ :=
  if b = 0 then Except.error "ZeroDivisionError" else Except.ok (a / b)

/-- The mean waiting time computed by `Customer.printStatistics`:
`sum(WaitingTimes) / len(WaitingTimes)`, unguarded. -/
def averageWaitTime (st : Stats) : Except String ℚ :=
  pyDiv st.WaitingTimes.sum (st.WaitingTimes.length : ℚ)

/-- The mean service time computed by `Customer.printStatistics`:
`sum(ServiceTimes) / len(ServiceTimes)`, unguarded. -/
def averageServiceTime (st : Stats) : Except String ℚ :=
  pyDiv st.ServiceTimes.sum (st.ServiceTimes.length : ℚ)

/-- 1 when the server has an assigned customer, else 0. -/
def Server.busyCount (s : Server) : ℕ :=
  if s.customer.isSome then 1 else 0

/-- Number of servers of the list with an assigned customer. -/
def inService (cashiers : List Server) : ℕ :=
  (cashiers.map Server.busyCount).sum

end CashierSim

namespace CashierSim

/-! ### Basic effect lemmas about the embedded operations -/

lemma busyCount_of_idle {s : Server} (h : s.isIdle = true) : s.busyCount = 0 := by
  unfold Server.busyCount
  unfold Server.isIdle at h
  cases hc : s.customer <;> simp [hc] at h ⊢

lemma busyCount_of_not_idle {s : Server} (h : ¬ s.isIdle = true) : s.busyCount = 1 := by
  unfold Server.busyCount
  unfold Server.isIdle at h
  cases hc : s.customer <;> simp [hc] at h ⊢

lemma help_effects (c : Customer) (w : ℚ) (t : ℤ) (f : ℚ) (st : Stats) :
    (c.help w t f st).1 = { c with workRemaining := c.workRemaining - w } ∧
    (c.help w t f st).2.CustomersLost = st.CustomersLost ∧
    (c.help w t f st).2.WaitingTimes = st.WaitingTimes ∧
    (c.workRemaining - w ≤ 0 →
      (c.help w t f st).2.TotalFinished = st.TotalFinished + 1 ∧
      (c.help w t f st).2.ServiceTimes =
        st.ServiceTimes ++ [(t : ℚ) - (c.timeExitedLine : ℚ) + f]) ∧
    (¬ c.workRemaining - w ≤ 0 → (c.help w t f st).2 = st) := by
  unfold Customer.help
  by_cases hf : c.workRemaining - w ≤ 0 <;> simp [hf]

lemma assign_effects (s : Server) (c : Customer) (t : ℤ) (st : Stats) :
    (s.assignCustomer c t st).1.busyCount = 1 ∧
    (s.assignCustomer c t st).2.TotalFinished = st.TotalFinished ∧
    (s.assignCustomer c t st).2.CustomersLost = st.CustomersLost := by
  simp [Server.assignCustomer, Customer.finishedWaiting, Server.busyCount]

lemma process_conserve (s : Server) (t : ℤ) (st : Stats) :
    (s.process t st).2.TotalFinished + (s.process t st).1.busyCount =
      st.TotalFinished + s.busyCount ∧
    (s.process t st).2.CustomersLost = st.CustomersLost := by
  cases hc : s.customer with
  | none => simp [Server.process, hc]
  | some c =>
    unfold Server.process
    rw [hc]
    simp only []
    by_cases hf :
        c.workRemaining -
          min c.workRemaining
            ((s.resetIfNewMinute t).unitsOfWorkPerMin -
              (s.resetIfNewMinute t).workDoneInLastMin) ≤ 0 <;>
      simp [Customer.help, Customer.isFinished, hf, Server.busyCount, hc]

end CashierSim

namespace CashierSim

/-! ### Scenario states used by concrete claims -/

/-- Scenario C of the spec: one server of rate 5, one customer of workload
12 arriving at minute 0, three ticks (minutes 0, 1, 2) with no further
arrivals, line capacity 10 (any capacity ≥ 1 behaves the same here). -/
def scenarioC : CustomerLine × Stats :=
  runBatches ⟨[Server.new 5], [], 10⟩ Stats.empty [[Customer.new 12 0], [], []] 0

/-- C1: the spec expects Scenario C to finish the workload-12 customer
after ticks 0, 1, 2 delivering 5+5+2 units with service time 2.4.  The
code instead delivers 5 units at tick 0 and then never calls `process` on
the busy cashier again, because `workOnCustomers` enters its loop only
while the pending queue is non-empty: after three ticks nobody has
finished, no service time was recorded, and the assigned customer still
has 7 units of work remaining. -/
theorem c1_scenarioC_stalls :
    scenarioC.2.TotalFinished = 0 ∧
    scenarioC.2.ServiceTimes = [] ∧
    scenarioC.1.cashiers.map (fun s => s.customer.map Customer.workRemaining) = [some 7] := by
  refine ⟨?_, ?_, ?_⟩ <;> with_unfolding_all rfl

/-- C2: with zero finished customers both sample lists are empty and
`Customer.printStatistics` computes `sum(...) / len(...)` unguarded, so
the mean-waiting-time and mean-service-time queries hit a Python
`ZeroDivisionError` instead of reporting a "no samples" condition. -/
theorem c2_zero_samples_division_error :
    averageWaitTime Stats.empty = Except.error "ZeroDivisionError" ∧
    averageServiceTime Stats.empty = Except.error "ZeroDivisionError" := by
  constructor <;> rfl

/-- A customer of workload 1 assigned at minute 0 and helped to completion
in minute 0: its first `help` call records its completion statistics. -/
def c3First : Customer × Stats :=
  (((Customer.new 1 0).finishedWaiting 0 Stats.empty).1).help 1 0 (1/5)
    ((Customer.new 1 0).finishedWaiting 0 Stats.empty).2

/-- A second `help` call on the already-finished customer of `c3First`. -/
def c3Second : Customer × Stats :=
  c3First.1.help 0 1 0 c3First.2

/-- C3 counterexample: `Customer.help` has no once-only guard — after
`workRemaining` has first dropped to 0, a further `help` call appends a
second service-time sample and increments `TotalFinished` again,
contradicting the claim that the statistics are mutated at most once. -/
theorem c3_counterexample :
    c3First.1.workRemaining = 0 ∧
    c3First.2.TotalFinished = 1 ∧
    c3First.2.ServiceTimes.length = 1 ∧
    c3Second.2.TotalFinished = 2 ∧
    c3Second.2.ServiceTimes.length = 2 := by
  refine ⟨?_, ?_, ?_, ?_, ?_⟩ <;> with_unfolding_all rfl

/-- C3 (amended): every `help` call whose post-subtraction `workRemaining`
is ≤ 0 appends one service-time sample and increments the finished
counter, including repeat calls on an already-finished customer; the
at-most-once recording in the program relies on `Server.process` clearing
its assignment at completion so `help` is never called again, not on a
guard inside `help`. -/
theorem c3_amended_recurring_mutation (c : Customer) (w f : ℚ) (t : ℤ) (st : Stats)
    (h : c.workRemaining - w ≤ 0) :
    (c.help w t f st).2.TotalFinished = st.TotalFinished + 1 ∧
    (c.help w t f st).2.ServiceTimes =
      st.ServiceTimes ++ [(t : ℚ) - (c.timeExitedLine : ℚ) + f] := by
  unfold Customer.help
  simp [h]

/-- Witness for `c3_amended_recurring_mutation` at the concrete input:
a fresh workload-2 customer helped with 3 units at minute 1. -/
theorem c3_amended_witness :
    ((Customer.new 2 0).help 3 1 0 Stats.empty).2.TotalFinished =
      Stats.empty.TotalFinished + 1 ∧
    ((Customer.new 2 0).help 3 1 0 Stats.empty).2.ServiceTimes =
      Stats.empty.ServiceTimes ++
        [((1 : ℤ) : ℚ) - (((Customer.new 2 0).timeExitedLine : ℤ) : ℚ) + 0] :=
  c3_amended_recurring_mutation (Customer.new 2 0) 3 0 1 Stats.empty (by norm_num [Customer.new])

/-! ### The assignment loop does nothing when the queue is empty -/

lemma serveLoop_nil (fuel : ℕ) (s : Server) (t : ℤ) (st : Stats) :
    Server.serveLoop fuel s t [] st = (s, [], st) := by
  cases fuel <;> rfl

lemma serveAll_nil (t : ℤ) (cashiers : List Server) (st : Stats) :
    serveAll t cashiers [] st = (cashiers, [], st) := by
  induction cashiers with
  | nil => rfl
  | cons s rest ih => simp [serveAll, serveLoop_nil, ih]

/-- C9: on a tick whose pending queue is empty when the assignment loop
runs, `workOnCustomers` is the identity: no cashier — busy or idle — has
`process` called on it, so every cashier's assigned customer, throttling
state and the statistics are all unchanged. -/
theorem c9_empty_queue_no_work (cashiers : List Server) (cap : ℤ) (t : ℤ) (st : Stats) :
    (CustomerLine.mk cashiers [] cap).workOnCustomers t st =
      (CustomerLine.mk cashiers [] cap, st) := by
  simp [CustomerLine.workOnCustomers, serveAll_nil]

end CashierSim

namespace CashierSim

/-! ### A zero-rate worker never completes its customer (claim C4) -/

/-- A server whose sampled rate is exactly 0, holding a customer with
positive remaining work, with a non-negative minute accumulator — the
permanently-stalling state of spec §7.  (In the program the accumulator of
such a server is always 0; non-negativity is the weaker fact the proof
propagates.) -/
def Server.zeroRateStalled (s : Server) : Bool :=
  decide (s.unitsOfWorkPerMin = 0) && decide (0 ≤ s.workDoneInLastMin) &&
    (match s.customer with
     | none => false
     | some c => decide (0 < c.workRemaining))

lemma zeroRateStalled_iff (s : Server) :
    s.zeroRateStalled = true ↔
      s.unitsOfWorkPerMin = 0 ∧ 0 ≤ s.workDoneInLastMin ∧
        ∃ c, s.customer = some c ∧ 0 < c.workRemaining := by
  unfold Server.zeroRateStalled
  cases hc : s.customer <;> simp [hc, and_assoc]

/-- Any number of `Server.process` calls at the given minutes, in order,
threading the statistics. -/
def Server.processSeq : Server → Stats → List ℤ → Server × Stats
  | s, st, [] => (s, st)
  | s, st, t :: ts => Server.processSeq (s.process t st).1 (s.process t st).2 ts

lemma zeroRate_process_step (s : Server) (t : ℤ) (st : Stats)
    (h : s.zeroRateStalled = true) :
    (s.process t st).1.zeroRateStalled = true ∧ (s.process t st).2 = st ∧
    (s.process t st).1.customersServed = s.customersServed := by
  rw [zeroRateStalled_iff] at h
  obtain ⟨h0, hwd, c, hc, hwr⟩ := h
  have hmin0 : min c.workRemaining (0 : ℚ) = 0 := min_eq_right hwr.le
  have hminwd : min c.workRemaining (-s.workDoneInLastMin) = -s.workDoneInLastMin :=
    min_eq_right (le_trans (neg_nonpos.mpr hwd) hwr.le)
  have hnf1 : ¬ c.workRemaining ≤ 0 := not_le.mpr hwr
  have hnf2 : ¬ c.workRemaining + s.workDoneInLastMin ≤ 0 :=
    not_le.mpr (by linarith)
  unfold Server.process Server.resetIfNewMinute
  rw [hc]
  by_cases hr : s.lastCustomerTime < t
  · simp [hr, h0, hmin0, Customer.help, Customer.isFinished, hnf1, zeroRateStalled_iff, hwr]
  · simp [hr, h0, hminwd, Customer.help, Customer.isFinished, hnf2, zeroRateStalled_iff]
    linarith

/-- C4: processing a worker whose `ratePerMinute` is exactly 0 with an
assigned customer of positive remaining work never fails (the embedded
`process` is total, mirroring the numpy `float64` division `0.0/0.0`
which yields `nan` without raising, a value the code then never reads)
and makes no progress: after any sequence of `process` calls the worker
is still stalled on its unfinished customer, the statistics are untouched
and its completed count is unchanged — the customer is never completed. -/
theorem c4_zero_rate_never_completes (s : Server) (st : Stats) (ts : List ℤ)
    (h : s.zeroRateStalled = true) :
    (s.processSeq st ts).1.zeroRateStalled = true ∧
    (s.processSeq st ts).2 = st ∧
    (s.processSeq st ts).1.customersServed = s.customersServed := by
  induction ts generalizing s st with
  | nil => exact ⟨h, rfl, rfl⟩
  | cons t ts ih =>
    obtain ⟨h1, h2, h3⟩ := zeroRate_process_step s t st h
    obtain ⟨g1, g2, g3⟩ := ih (s.process t st).1 (s.process t st).2 h1
    refine ⟨g1, ?_, ?_⟩
    · rw [Server.processSeq, g2, h2]
    · rw [Server.processSeq, g3, h3]

/-- Witness for `c4_zero_rate_never_completes`: a fresh zero-rate server
assigned a workload-3 customer, processed at minutes 0, 1 and 1. -/
theorem c4_witness :
    ((⟨0, 0, -1, 0, some (Customer.new 3 0)⟩ : Server).processSeq Stats.empty [0, 1, 1]).1.zeroRateStalled = true ∧
    ((⟨0, 0, -1, 0, some (Customer.new 3 0)⟩ : Server).processSeq Stats.empty [0, 1, 1]).2 = Stats.empty ∧
    ((⟨0, 0, -1, 0, some (Customer.new 3 0)⟩ : Server).processSeq Stats.empty [0, 1, 1]).1.customersServed =
      (⟨0, 0, -1, 0, some (Customer.new 3 0)⟩ : Server).customersServed :=
  c4_zero_rate_never_completes ⟨0, 0, -1, 0, some (Customer.new 3 0)⟩ Stats.empty [0, 1, 1]
    (by with_unfolding_all rfl)

end CashierSim

namespace CashierSim

/-! ### Admission control: capacity bound and prefix policy (claims C5, C6) -/

lemma addCustomers_cashiers_cap (line : CustomerLine) (customers : List Customer) (st : Stats) :
    (line.addCustomersToLine customers st).1.cashiers = line.cashiers ∧
    (line.addCustomersToLine customers st).1.cap = line.cap := by
  unfold CustomerLine.addCustomersToLine
  split_ifs <;> exact ⟨rfl, rfl⟩

lemma addCustomers_len_le (line : CustomerLine) (customers : List Customer) (st : Stats)
    (h : (line.customerQueue.length : ℤ) ≤ line.cap) :
    ((line.addCustomersToLine customers st).1.customerQueue.length : ℤ) ≤ line.cap := by
  unfold CustomerLine.addCustomersToLine
  split_ifs with hfit
  · simpa using hfit
  · simp only [List.length_append, List.length_take]
    push_cast
    omega

lemma serveLoop_len_le (fuel : ℕ) :
    ∀ (s : Server) (t : ℤ) (q : List Customer) (st : Stats),
      (Server.serveLoop fuel s t q st).2.1.length ≤ q.length := by
  induction fuel with
  | zero => intro s t q st; simp [Server.serveLoop]
  | succ fuel ih =>
    intro s t q st
    cases q with
    | nil => simp [Server.serveLoop]
    | cons c rest =>
      unfold Server.serveLoop
      split_ifs with h1 h2
      · exact le_trans (ih _ _ _ _) (Nat.le_succ _)
      · exact ih _ _ _ _
      · simp

lemma serveAll_len_le : ∀ (cs : List Server) (t : ℤ) (q : List Customer) (st : Stats),
    (serveAll t cs q st).2.1.length ≤ q.length
  | [], _, _, _ => le_refl _
  | s :: rest, t, q, st => by
    unfold serveAll
    exact le_trans (serveAll_len_le rest t _ _) (serveLoop_len_le _ _ _ _ _)

lemma workOnCustomers_len_le (line : CustomerLine) (t : ℤ) (st : Stats) :
    (line.workOnCustomers t st).1.customerQueue.length ≤ line.customerQueue.length :=
  serveAll_len_le _ _ _ _

lemma workOnCustomers_cap (line : CustomerLine) (t : ℤ) (st : Stats) :
    (line.workOnCustomers t st).1.cap = line.cap := rfl

lemma process_cap (line : CustomerLine) (customers : List Customer) (t : ℤ) (st : Stats) :
    (line.process customers t st).1.cap = line.cap := by
  unfold CustomerLine.process
  rw [workOnCustomers_cap]
  exact (addCustomers_cashiers_cap line customers st).2

lemma process_len_le (line : CustomerLine) (customers : List Customer) (t : ℤ) (st : Stats)
    (h : (line.customerQueue.length : ℤ) ≤ line.cap) :
    ((line.process customers t st).1.customerQueue.length : ℤ) ≤ line.cap := by
  unfold CustomerLine.process
  calc ((((line.addCustomersToLine customers st).1.workOnCustomers t
            (line.addCustomersToLine customers st).2).1.customerQueue.length : ℕ) : ℤ)
      ≤ ((line.addCustomersToLine customers st).1.customerQueue.length : ℤ) := by
        exact_mod_cast workOnCustomers_len_le _ _ _
    _ ≤ line.cap := addCustomers_len_le line customers st h

lemma runBatches_len_le : ∀ (line : CustomerLine) (st : Stats) (bs : List (List Customer)) (t : ℤ),
    (line.customerQueue.length : ℤ) ≤ line.cap →
    ((runBatches line st bs t).1.customerQueue.length : ℤ) ≤ line.cap
  | line, st, [], t, h => h
  | line, st, b :: bs, t, h => by
    unfold runBatches
    have h1 : ((line.process b t st).1.customerQueue.length : ℤ) ≤ (line.process b t st).1.cap := by
      rw [process_cap]
      exact process_len_le line b t st h
    have h2 := runBatches_len_le (line.process b t st).1 (line.process b t st).2 bs (t + 1) h1
    rw [process_cap] at h2
    exact h2

/-- C5: admission preserves the capacity bound — whenever
`len(pending) ≤ cap` held before, it holds again after
`addCustomersToLine` returns — the assignment pass `workOnCustomers`
never grows the queue, and consequently every state of any run of the
tick loop that starts within capacity (in particular from an empty
queue) keeps `len(pending) ≤ cap`. -/
theorem c5_capacity_invariant (line : CustomerLine) (customers : List Customer)
    (bs : List (List Customer)) (t tstart : ℤ) (st : Stats)
    (h : (line.customerQueue.length : ℤ) ≤ line.cap) :
    ((line.addCustomersToLine customers st).1.customerQueue.length : ℤ) ≤ line.cap ∧
    (line.workOnCustomers t st).1.customerQueue.length ≤ line.customerQueue.length ∧
    ((runBatches line st bs tstart).1.customerQueue.length : ℤ) ≤ line.cap :=
  ⟨addCustomers_len_le line customers st h, workOnCustomers_len_le line t st,
   runBatches_len_le line st bs tstart h⟩

/-- Witness for `c5_capacity_invariant`: a line of capacity 2 holding one
customer, a batch of two arrivals, one further tick. -/
theorem c5_witness :
    (((⟨[Server.new 5], [Customer.new 1 0], 2⟩ : CustomerLine).addCustomersToLine
        [Customer.new 2 0, Customer.new 3 0] Stats.empty).1.customerQueue.length : ℤ) ≤
      (⟨[Server.new 5], [Customer.new 1 0], 2⟩ : CustomerLine).cap ∧
    ((⟨[Server.new 5], [Customer.new 1 0], 2⟩ : CustomerLine).workOnCustomers 0
        Stats.empty).1.customerQueue.length ≤
      (⟨[Server.new 5], [Customer.new 1 0], 2⟩ : CustomerLine).customerQueue.length ∧
    ((runBatches ⟨[Server.new 5], [Customer.new 1 0], 2⟩ Stats.empty
        [[Customer.new 4 1]] 0).1.customerQueue.length : ℤ) ≤
      (⟨[Server.new 5], [Customer.new 1 0], 2⟩ : CustomerLine).cap :=
  c5_capacity_invariant ⟨[Server.new 5], [Customer.new 1 0], 2⟩
    [Customer.new 2 0, Customer.new 3 0] [[Customer.new 4 1]] 0 0 Stats.empty (by norm_num)

/-- C6: the admission policy, exactly as implemented — for a queue within
capacity: a batch that fits is appended whole, in batch order, with no
statistics change; a batch that does not fit has exactly its first
`cap - len(pending)` customers (a prefix, in arrival order) appended,
and the lost count grows by exactly the number of remaining customers,
which are never enqueued. -/
theorem c6_admission_prefix (line : CustomerLine) (customers : List Customer) (st : Stats)
    (h : (line.customerQueue.length : ℤ) ≤ line.cap) :
    (((line.customerQueue.length : ℤ) + customers.length ≤ line.cap) →
      (line.addCustomersToLine customers st).1.customerQueue =
        line.customerQueue ++ customers ∧
      (line.addCustomersToLine customers st).2 = st) ∧
    (¬ ((line.customerQueue.length : ℤ) + customers.length ≤ line.cap) →
      (line.addCustomersToLine customers st).1.customerQueue =
        line.customerQueue ++
          customers.take (line.cap - (line.customerQueue.length : ℤ)).toNat ∧
      (line.cap - (line.customerQueue.length : ℤ)).toNat ≤ customers.length ∧
      (line.addCustomersToLine customers st).2.CustomersLost =
        st.CustomersLost +
          ((customers.length : ℤ) - (line.cap - (line.customerQueue.length : ℤ)))) := by
  unfold CustomerLine.addCustomersToLine
  split_ifs with hfit
  · exact ⟨fun _ => ⟨rfl, rfl⟩, fun hn => absurd hfit hn⟩
  · refine ⟨fun hyes => absurd hyes hfit, fun _ => ⟨rfl, ?_, rfl⟩⟩
    omega

/-- Scenario B of the spec: capacity 2, empty queue (and no idle workers:
the cashier list is irrelevant to admission), three customers in one tick. -/
def scenarioBLine : CustomerLine := ⟨[], [], 2⟩

/-- The three-customer batch of Scenario B. -/
def scenarioBBatch : List Customer := [Customer.new 1 0, Customer.new 2 0, Customer.new 3 0]

/-- Witness for `c6_admission_prefix` at Scenario B: 2 of the 3 arrivals
are admitted (the prefix) and 1 is added to the lost count. -/
theorem c6_witness :
    (((scenarioBLine.customerQueue.length : ℤ) + scenarioBBatch.length ≤ scenarioBLine.cap) →
      (scenarioBLine.addCustomersToLine scenarioBBatch Stats.empty).1.customerQueue =
        scenarioBLine.customerQueue ++ scenarioBBatch ∧
      (scenarioBLine.addCustomersToLine scenarioBBatch Stats.empty).2 = Stats.empty) ∧
    (¬ ((scenarioBLine.customerQueue.length : ℤ) + scenarioBBatch.length ≤ scenarioBLine.cap) →
      (scenarioBLine.addCustomersToLine scenarioBBatch Stats.empty).1.customerQueue =
        scenarioBLine.customerQueue ++
          scenarioBBatch.take (scenarioBLine.cap - (scenarioBLine.customerQueue.length : ℤ)).toNat ∧
      (scenarioBLine.cap - (scenarioBLine.customerQueue.length : ℤ)).toNat ≤ scenarioBBatch.length ∧
      (scenarioBLine.addCustomersToLine scenarioBBatch Stats.empty).2.CustomersLost =
        Stats.empty.CustomersLost +
          ((scenarioBBatch.length : ℤ) -
            (scenarioBLine.cap - (scenarioBLine.customerQueue.length : ℤ)))) :=
  c6_admission_prefix scenarioBLine scenarioBBatch Stats.empty
    (by norm_num [scenarioBLine])

end CashierSim

namespace CashierSim

/-! ### Characterisation of `Server.process` (claims C7, C10) -/

/-- The `workToBeDone` computed inside `Server.process`:
`min(customer.workRemaining, unitsOfWorkPerMin - workDoneInLastMin)` read
after the lazy minute reset. -/
def Server.workToBeDone (s : Server) (c : Customer) (t : ℤ) : ℚ :=
  min c.workRemaining
    ((s.resetIfNewMinute t).unitsOfWorkPerMin - (s.resetIfNewMinute t).workDoneInLastMin)

lemma reset_rate (s : Server) (t : ℤ) :
    (s.resetIfNewMinute t).unitsOfWorkPerMin = s.unitsOfWorkPerMin := by
  unfold Server.resetIfNewMinute
  split_ifs <;> rfl

lemma reset_served (s : Server) (t : ℤ) :
    (s.resetIfNewMinute t).customersServed = s.customersServed := by
  unfold Server.resetIfNewMinute
  split_ifs <;> rfl

lemma reset_of_lt {s : Server} {t : ℤ} (h : s.lastCustomerTime < t) :
    (s.resetIfNewMinute t).workDoneInLastMin = 0 ∧
    (s.resetIfNewMinute t).lastCustomerTime = t := by
  unfold Server.resetIfNewMinute
  rw [if_pos h]
  exact ⟨rfl, rfl⟩

lemma help_fst (c : Customer) (w : ℚ) (t : ℤ) (f : ℚ) (st : Stats) :
    (c.help w t f st).1 = { c with workRemaining := c.workRemaining - w } := by
  simp only [Customer.help]
  split_ifs <;> rfl

lemma help_snd_of_finished (c : Customer) (w : ℚ) (t : ℤ) (f : ℚ) (st : Stats)
    (hf : c.workRemaining - w ≤ 0) :
    (c.help w t f st).2 =
      { st with
        ServiceTimes := st.ServiceTimes ++ [(t : ℚ) - (c.timeExitedLine : ℚ) + f],
        TotalFinished := st.TotalFinished + 1 } := by
  simp only [Customer.help]
  rw [if_pos hf]

lemma help_snd_of_not_finished (c : Customer) (w : ℚ) (t : ℤ) (f : ℚ) (st : Stats)
    (hf : ¬ c.workRemaining - w ≤ 0) :
    (c.help w t f st).2 = st := by
  simp only [Customer.help]
  rw [if_neg hf]

lemma process_of_none (s : Server) (t : ℤ) (st : Stats) (hc : s.customer = none) :
    s.process t st = (s, st) := by
  unfold Server.process
  rw [hc]

lemma process_of_finished (s : Server) (c : Customer) (t : ℤ) (st : Stats)
    (hc : s.customer = some c) (hf : c.workRemaining - s.workToBeDone c t ≤ 0) :
    s.process t st =
      ({ unitsOfWorkPerMin := (s.resetIfNewMinute t).unitsOfWorkPerMin,
         workDoneInLastMin := (s.resetIfNewMinute t).workDoneInLastMin + s.workToBeDone c t,
         lastCustomerTime := (s.resetIfNewMinute t).lastCustomerTime,
         customersServed := (s.resetIfNewMinute t).customersServed + 1,
         customer := none },
       { WaitingTimes := st.WaitingTimes,
         ServiceTimes := st.ServiceTimes ++
           [(t : ℚ) - (c.timeExitedLine : ℚ) +
             s.workToBeDone c t / (s.resetIfNewMinute t).unitsOfWorkPerMin],
         TotalFinished := st.TotalFinished + 1,
         CustomersLost := st.CustomersLost }) := by
  unfold Server.workToBeDone at hf ⊢
  unfold Server.process
  rw [hc]
  simp only [help_fst, help_snd_of_finished _ _ _ _ _ hf, Customer.isFinished]
  rw [if_pos (by simpa using hf)]

lemma process_of_not_finished (s : Server) (c : Customer) (t : ℤ) (st : Stats)
    (hc : s.customer = some c) (hf : ¬ c.workRemaining - s.workToBeDone c t ≤ 0) :
    s.process t st =
      ({ unitsOfWorkPerMin := (s.resetIfNewMinute t).unitsOfWorkPerMin,
         workDoneInLastMin := (s.resetIfNewMinute t).workDoneInLastMin + s.workToBeDone c t,
         lastCustomerTime := (s.resetIfNewMinute t).lastCustomerTime,
         customersServed := (s.resetIfNewMinute t).customersServed,
         customer := some { c with workRemaining := c.workRemaining - s.workToBeDone c t } },
       st) := by
  unfold Server.workToBeDone at hf ⊢
  unfold Server.process
  rw [hc]
  simp only [help_fst, help_snd_of_not_finished _ _ _ _ _ hf, Customer.isFinished]
  rw [if_neg (by simpa using hf)]

lemma process_wd_lastTime (s : Server) (c : Customer) (t : ℤ) (st : Stats)
    (hc : s.customer = some c) :
    (s.process t st).1.workDoneInLastMin =
      (s.resetIfNewMinute t).workDoneInLastMin + s.workToBeDone c t ∧
    (s.process t st).1.lastCustomerTime = (s.resetIfNewMinute t).lastCustomerTime := by
  by_cases hf : c.workRemaining - s.workToBeDone c t ≤ 0
  · rw [process_of_finished s c t st hc hf]
    exact ⟨rfl, rfl⟩
  · rw [process_of_not_finished s c t st hc hf]
    exact ⟨rfl, rfl⟩

/-- C7: after every `process` call the minute accumulator respects the
budget: starting from a state satisfying the invariant
`workDoneInLastMin ≤ ratePerMinute`, it still satisfies it afterwards —
even across several customers in one minute, since the delivered work is
clamped by `ratePerMinute - workDoneInLastMin`; and on the first `process`
call of a new minute on a busy worker the accumulator is computed from a
fresh reset to 0 (and the minute stamp is updated), ending the call at
`min(workRemaining, ratePerMinute)`.  An idle worker's `process` is a
no-op, per the source's early return, so its accumulator is unchanged. -/
theorem c7_budget_invariant (s : Server) (c : Customer) (t : ℤ) (st : Stats)
    (h : s.workDoneInLastMin ≤ s.unitsOfWorkPerMin) :
    (s.process t st).1.workDoneInLastMin ≤ s.unitsOfWorkPerMin ∧
    (s.customer = some c → s.lastCustomerTime < t →
      (s.process t st).1.lastCustomerTime = t ∧
      (s.process t st).1.workDoneInLastMin = min c.workRemaining s.unitsOfWorkPerMin) := by
  constructor
  · cases hc : s.customer with
    | none =>
      rw [process_of_none s t st hc]
      exact h
    | some c₀ =>
      obtain ⟨hwd, -⟩ := process_wd_lastTime s c₀ t st hc
      have hwle : s.workToBeDone c₀ t ≤
          (s.resetIfNewMinute t).unitsOfWorkPerMin - (s.resetIfNewMinute t).workDoneInLastMin :=
        min_le_right _ _
      have hrr := reset_rate s t
      rw [hwd]
      linarith
  · intro hc hr
    obtain ⟨hwd, hltime⟩ := process_wd_lastTime s c t st hc
    obtain ⟨hz, hlt⟩ := reset_of_lt hr
    refine ⟨by rw [hltime, hlt], ?_⟩
    rw [hwd, hz, zero_add]
    unfold Server.workToBeDone
    rw [hz, reset_rate, sub_zero]

/-- Witness for `c7_budget_invariant`: a rate-5 server that already did 2
units in minute 0, holding a workload-7 customer, processed at minute 1. -/
theorem c7_witness :
    ((⟨5, 2, 0, 0, some (Customer.new 7 0)⟩ : Server).process 1 Stats.empty).1.workDoneInLastMin ≤
      (⟨5, 2, 0, 0, some (Customer.new 7 0)⟩ : Server).unitsOfWorkPerMin ∧
    ((⟨5, 2, 0, 0, some (Customer.new 7 0)⟩ : Server).customer = some (Customer.new 7 0) →
      (⟨5, 2, 0, 0, some (Customer.new 7 0)⟩ : Server).lastCustomerTime < 1 →
      ((⟨5, 2, 0, 0, some (Customer.new 7 0)⟩ : Server).process 1 Stats.empty).1.lastCustomerTime = 1 ∧
      ((⟨5, 2, 0, 0, some (Customer.new 7 0)⟩ : Server).process 1 Stats.empty).1.workDoneInLastMin =
        min (Customer.new 7 0).workRemaining
          (⟨5, 2, 0, 0, some (Customer.new 7 0)⟩ : Server).unitsOfWorkPerMin) :=
  c7_budget_invariant ⟨5, 2, 0, 0, some (Customer.new 7 0)⟩ (Customer.new 7 0) 1 Stats.empty
    (by norm_num)

/-- C10: under the engine's operating conditions (customer assigned with
non-negative remaining work, non-negative rate, accumulator within
budget), the clamped `workToBeDone` satisfies
`0 ≤ workToBeDone ≤ workRemaining`; a customer surviving `process` has
`workRemaining` decremented by exactly `workToBeDone` and still
non-negative; and at the moment of completion (assignment cleared) the
remaining work hits exactly 0, never a strictly negative value, with the
recorded service-time sample carrying the fractional credit
`workToBeDone / ratePerMinute` for the final minute. -/
theorem c10_work_clamped (s : Server) (c cafter : Customer) (t : ℤ) (st : Stats)
    (hc : s.customer = some c) (hwr : 0 ≤ c.workRemaining)
    (hrate : 0 ≤ s.unitsOfWorkPerMin) (hwd : s.workDoneInLastMin ≤ s.unitsOfWorkPerMin) :
    0 ≤ s.workToBeDone c t ∧
    s.workToBeDone c t ≤ c.workRemaining ∧
    ((s.process t st).1.customer = some cafter →
      cafter.workRemaining = c.workRemaining - s.workToBeDone c t ∧
      0 ≤ cafter.workRemaining) ∧
    ((s.process t st).1.customer = none →
      c.workRemaining - s.workToBeDone c t = 0 ∧
      (s.process t st).2.ServiceTimes =
        st.ServiceTimes ++
          [(t : ℚ) - (c.timeExitedLine : ℚ) +
            s.workToBeDone c t / s.unitsOfWorkPerMin]) := by
  have hbud : 0 ≤ (s.resetIfNewMinute t).unitsOfWorkPerMin -
      (s.resetIfNewMinute t).workDoneInLastMin := by
    unfold Server.resetIfNewMinute
    split_ifs <;> simp <;> linarith
  have h0w : 0 ≤ s.workToBeDone c t := le_min hwr hbud
  have hwleft : s.workToBeDone c t ≤ c.workRemaining := min_le_left _ _
  refine ⟨h0w, hwleft, ?_, ?_⟩
  · intro hc'
    by_cases hf : c.workRemaining - s.workToBeDone c t ≤ 0
    · rw [process_of_finished s c t st hc hf] at hc'
      exact absurd hc' (by simp)
    · rw [process_of_not_finished s c t st hc hf] at hc'
      simp only [Option.some.injEq] at hc'
      rw [← hc']
      exact ⟨rfl, by simpa using le_of_not_le hf⟩
  · intro hnone
    by_cases hf : c.workRemaining - s.workToBeDone c t ≤ 0
    · have hz : c.workRemaining - s.workToBeDone c t = 0 := le_antisymm hf (by linarith)
      rw [process_of_finished s c t st hc hf]
      exact ⟨hz, by rw [reset_rate]⟩
    · rw [process_of_not_finished s c t st hc hf] at hnone
      exact absurd hnone (by simp)

/-- Witness for `c10_work_clamped`: a fresh rate-5 server with a
workload-7 customer processed at minute 0; the surviving customer holds
exactly 2 units. -/
theorem c10_witness :
    0 ≤ (⟨5, 0, -1, 0, some (Customer.new 7 0)⟩ : Server).workToBeDone (Customer.new 7 0) 0 ∧
    (⟨5, 0, -1, 0, some (Customer.new 7 0)⟩ : Server).workToBeDone (Customer.new 7 0) 0 ≤
      (Customer.new 7 0).workRemaining ∧
    (((⟨5, 0, -1, 0, some (Customer.new 7 0)⟩ : Server).process 0 Stats.empty).1.customer =
        some ⟨7, 2, 0, -1⟩ →
      (⟨(7 : ℚ), 2, 0, -1⟩ : Customer).workRemaining =
        (Customer.new 7 0).workRemaining -
          (⟨5, 0, -1, 0, some (Customer.new 7 0)⟩ : Server).workToBeDone (Customer.new 7 0) 0 ∧
      0 ≤ (⟨(7 : ℚ), 2, 0, -1⟩ : Customer).workRemaining) ∧
    (((⟨5, 0, -1, 0, some (Customer.new 7 0)⟩ : Server).process 0 Stats.empty).1.customer = none →
      (Customer.new 7 0).workRemaining -
          (⟨5, 0, -1, 0, some (Customer.new 7 0)⟩ : Server).workToBeDone (Customer.new 7 0) 0 = 0 ∧
      ((⟨5, 0, -1, 0, some (Customer.new 7 0)⟩ : Server).process 0 Stats.empty).2.ServiceTimes =
        Stats.empty.ServiceTimes ++
          [((0 : ℤ) : ℚ) - ((Customer.new 7 0).timeExitedLine : ℚ) +
            (⟨5, 0, -1, 0, some (Customer.new 7 0)⟩ : Server).workToBeDone (Customer.new 7 0) 0 /
              (⟨5, 0, -1, 0, some (Customer.new 7 0)⟩ : Server).unitsOfWorkPerMin]) :=
  c10_work_clamped ⟨5, 0, -1, 0, some (Customer.new 7 0)⟩ (Customer.new 7 0) ⟨7, 2, 0, -1⟩ 0
    Stats.empty rfl (by norm_num [Customer.new]) (by norm_num) (by norm_num)

end CashierSim

namespace CashierSim

/-! ### Customer conservation through the tick loop (claim C8) -/

lemma serveLoop_conserve (fuel : ℕ) :
    ∀ (s : Server) (t : ℤ) (q : List Customer) (st : Stats),
      (Server.serveLoop fuel s t q st).2.2.TotalFinished +
        (Server.serveLoop fuel s t q st).2.1.length +
        (Server.serveLoop fuel s t q st).1.busyCount =
        st.TotalFinished + q.length + s.busyCount ∧
      (Server.serveLoop fuel s t q st).2.2.CustomersLost = st.CustomersLost := by
  induction fuel with
  | zero => intro s t q st; exact ⟨rfl, rfl⟩
  | succ fuel ih =>
    intro s t q st
    cases q with
    | nil => exact ⟨rfl, rfl⟩
    | cons c rest =>
      simp only [Server.serveLoop]
      split_ifs with h1 h2
      · obtain ⟨ha1, ha2, ha3⟩ := assign_effects s c t st
        obtain ⟨hp1, hp2⟩ := process_conserve (s.assignCustomer c t st).1 t
          (s.assignCustomer c t st).2
        obtain ⟨ihs, ihl⟩ := ih ((s.assignCustomer c t st).1.process t
          (s.assignCustomer c t st).2).1 t rest
          ((s.assignCustomer c t st).1.process t (s.assignCustomer c t st).2).2
        have hb0 := busyCount_of_idle h2
        constructor
        · simp only [List.length_cons]
          omega
        · omega
      · obtain ⟨hp1, hp2⟩ := process_conserve s t st
        obtain ⟨ihs, ihl⟩ := ih (s.process t st).1 t (c :: rest) (s.process t st).2
        have hb1 := busyCount_of_not_idle h2
        constructor
        · simp only [List.length_cons] at ihs ⊢
          omega
        · omega
      · exact ⟨rfl, rfl⟩

lemma serveAll_conserve : ∀ (cs : List Server) (t : ℤ) (q : List Customer) (st : Stats),
    (serveAll t cs q st).2.2.TotalFinished + (serveAll t cs q st).2.1.length +
      inService (serveAll t cs q st).1 =
      st.TotalFinished + q.length + inService cs ∧
    (serveAll t cs q st).2.2.CustomersLost = st.CustomersLost
  | [], t, q, st => ⟨rfl, rfl⟩
  | s :: rest, t, q, st => by
    simp only [serveAll]
    obtain ⟨h1, h2⟩ := serveLoop_conserve (2 * q.length + 2) s t q st
    obtain ⟨g1, g2⟩ := serveAll_conserve rest t
      (Server.serveLoop (2 * q.length + 2) s t q st).2.1
      (Server.serveLoop (2 * q.length + 2) s t q st).2.2
    simp only [inService, List.map_cons, List.sum_cons] at g1 ⊢
    constructor
    · omega
    · omega

lemma workOnCustomers_conserve (line : CustomerLine) (t : ℤ) (st : Stats) :
    (line.workOnCustomers t st).2.TotalFinished +
      (line.workOnCustomers t st).1.customerQueue.length +
      inService (line.workOnCustomers t st).1.cashiers =
      st.TotalFinished + line.customerQueue.length + inService line.cashiers ∧
    (line.workOnCustomers t st).2.CustomersLost = st.CustomersLost :=
  serveAll_conserve line.cashiers t line.customerQueue st

lemma addCustomers_conserve (line : CustomerLine) (customers : List Customer) (st : Stats)
    (h : (line.customerQueue.length : ℤ) ≤ line.cap) :
    ((line.addCustomersToLine customers st).1.customerQueue.length : ℤ) +
      (line.addCustomersToLine customers st).2.CustomersLost =
      (line.customerQueue.length : ℤ) + customers.length + st.CustomersLost ∧
    (line.addCustomersToLine customers st).2.TotalFinished = st.TotalFinished ∧
    (line.addCustomersToLine customers st).1.cashiers = line.cashiers := by
  unfold CustomerLine.addCustomersToLine
  split_ifs with hfit
  · refine ⟨?_, rfl, rfl⟩
    simp only [List.length_append]
    push_cast
    omega
  · refine ⟨?_, rfl, rfl⟩
    simp only [List.length_append, List.length_take]
    push_cast
    omega

lemma tick_conserve (line : CustomerLine) (customers : List Customer) (t : ℤ) (st : Stats)
    (h : (line.customerQueue.length : ℤ) ≤ line.cap) :
    ((line.process customers t st).2.TotalFinished : ℤ) +
      (line.process customers t st).1.customerQueue.length +
      inService (line.process customers t st).1.cashiers +
      (line.process customers t st).2.CustomersLost =
      (st.TotalFinished : ℤ) + line.customerQueue.length + inService line.cashiers +
        st.CustomersLost + customers.length := by
  have hdef : line.process customers t st =
      (line.addCustomersToLine customers st).1.workOnCustomers t
        (line.addCustomersToLine customers st).2 := rfl
  rw [hdef]
  obtain ⟨ha, haTF, hacash⟩ := addCustomers_conserve line customers st h
  obtain ⟨hw, hwlost⟩ := workOnCustomers_conserve (line.addCustomersToLine customers st).1 t
    (line.addCustomersToLine customers st).2
  rw [hacash] at hw
  omega

lemma runBatches_conserve :
    ∀ (line : CustomerLine) (st : Stats) (bs : List (List Customer)) (t : ℤ),
      (line.customerQueue.length : ℤ) ≤ line.cap →
      ((runBatches line st bs t).2.TotalFinished : ℤ) +
        (runBatches line st bs t).1.customerQueue.length +
        inService (runBatches line st bs t).1.cashiers +
        (runBatches line st bs t).2.CustomersLost =
        (st.TotalFinished : ℤ) + line.customerQueue.length + inService line.cashiers +
          st.CustomersLost + ((bs.map List.length).sum : ℤ)
  | line, st, [], t, h => by
    simp [runBatches]
  | line, st, b :: bs, t, h => by
    unfold runBatches
    have h1 : ((line.process b t st).1.customerQueue.length : ℤ) ≤ (line.process b t st).1.cap := by
      rw [process_cap]
      exact process_len_le line b t st h
    have hrec := runBatches_conserve (line.process b t st).1 (line.process b t st).2 bs (t + 1) h1
    have htick := tick_conserve line b t st h
    rw [hrec]
    simp only [List.map_cons, List.sum_cons]
    push_cast
    omega

lemma inService_new (rates : List ℚ) : inService (rates.map Server.new) = 0 := by
  induction rates with
  | nil => rfl
  | cons r rest ih =>
    simp only [List.map_cons, inService, List.sum_cons] at ih ⊢
    simpa [Server.busyCount, Server.new] using ih

/-- C8: customers are conserved.  Over any complete run of the tick loop
from the program's initial state (fresh idle servers, empty queue, zero
statistics), the total number of arrivals equals finished customers plus
customers still pending plus customers still in service plus lost
customers; and each single admission splits its batch exactly into the
newly enqueued customers and the newly lost ones, so total arrivals =
admitted + lost with admitted = finished + pending + in-service. -/
theorem c8_conservation (rates : List ℚ) (cap : ℤ) (batches : List (List Customer))
    (tstart : ℤ) (line : CustomerLine) (customers : List Customer) (st : Stats)
    (hcap : 0 ≤ cap) (hline : (line.customerQueue.length : ℤ) ≤ line.cap) :
    ((batches.map List.length).sum : ℤ) =
      ((runBatches ⟨rates.map Server.new, [], cap⟩ Stats.empty batches tstart).2.TotalFinished : ℤ) +
        (runBatches ⟨rates.map Server.new, [], cap⟩ Stats.empty batches tstart).1.customerQueue.length +
        inService (runBatches ⟨rates.map Server.new, [], cap⟩ Stats.empty batches tstart).1.cashiers +
        (runBatches ⟨rates.map Server.new, [], cap⟩ Stats.empty batches tstart).2.CustomersLost ∧
    ((line.addCustomersToLine customers st).1.customerQueue.length : ℤ) -
        (line.customerQueue.length : ℤ) +
        ((line.addCustomersToLine customers st).2.CustomersLost - st.CustomersLost) =
      (customers.length : ℤ) := by
  constructor
  · have hrun := runBatches_conserve ⟨rates.map Server.new, [], cap⟩ Stats.empty batches tstart
      (by simpa using hcap)
    rw [inService_new] at hrun
    simp only [show Stats.empty.TotalFinished = 0 from rfl,
      show Stats.empty.CustomersLost = 0 from rfl,
      show (⟨rates.map Server.new, ([] : List Customer), cap⟩ : CustomerLine).customerQueue =
        ([] : List Customer) from rfl,
      List.length_nil] at hrun
    omega
  · obtain ⟨ha, -, -⟩ := addCustomers_conserve line customers st hline
    omega


/-- Witness for `c8_conservation`: one rate-2 server, capacity 3, a
single tick with two arrivals; and a separate admission of three
customers into an empty capacity-2 line. -/
theorem c8_witness :
    ((([[Customer.new 1 0, Customer.new 2 0]] : List (List Customer)).map List.length).sum : ℤ) =
      ((runBatches ⟨[(2 : ℚ)].map Server.new, [], 3⟩ Stats.empty
          [[Customer.new 1 0, Customer.new 2 0]] 0).2.TotalFinished : ℤ) +
        (runBatches ⟨[(2 : ℚ)].map Server.new, [], 3⟩ Stats.empty
          [[Customer.new 1 0, Customer.new 2 0]] 0).1.customerQueue.length +
        inService (runBatches ⟨[(2 : ℚ)].map Server.new, [], 3⟩ Stats.empty
          [[Customer.new 1 0, Customer.new 2 0]] 0).1.cashiers +
        (runBatches ⟨[(2 : ℚ)].map Server.new, [], 3⟩ Stats.empty
          [[Customer.new 1 0, Customer.new 2 0]] 0).2.CustomersLost ∧
    (((⟨[], [], 2⟩ : CustomerLine).addCustomersToLine
          [Customer.new 4 0, Customer.new 5 0, Customer.new 6 0]
          Stats.empty).1.customerQueue.length : ℤ) -
        ((⟨[], [], 2⟩ : CustomerLine).customerQueue.length : ℤ) +
        (((⟨[], [], 2⟩ : CustomerLine).addCustomersToLine
            [Customer.new 4 0, Customer.new 5 0, Customer.new 6 0]
            Stats.empty).2.CustomersLost - Stats.empty.CustomersLost) =
      (([Customer.new 4 0, Customer.new 5 0, Customer.new 6 0] : List Customer).length : ℤ) :=
  c8_conservation [(2 : ℚ)] 3 [[Customer.new 1 0, Customer.new 2 0]] 0 ⟨[], [], 2⟩
    [Customer.new 4 0, Customer.new 5 0, Customer.new 6 0] Stats.empty
    (by norm_num) (by norm_num)

end CashierSim
